import Mathlib

/-!
# A shallow embedding of `VLVector.hpp`

`VLVector<T, StaticCapacity>` (file `src/VLVector.hpp`) is a sequence
container holding its elements either in a fixed inline array
`_statData[StaticCapacity]` (Static mode, `_dynamic == false`) or in a heap
array (`Dynamic` mode, `_dynamic == true`).  The active buffer is reached
through the pointer `_curData`; the logically present elements are the first
`_size` slots of that buffer.

The embedding below models a container state by its bookkeeping fields
`_dynamic`, `_size`, `_capacity` (all as in the source) together with
`_curData : List T`, the list of values stored in the first `_size` slots of
the active buffer (the "logical prefix"; slots past `_size` hold
indeterminate values and are never read by well-formed uses).  `_size` is a
C++ `size_t`, i.e. a 64-bit unsigned integer: increments never overflow in a
real execution (each counted element occupies at least one byte of the
2^64-byte address space) and are modelled by `+ 1`; the decrement `--_size`,
however, is reachable at `_size == 0` (`pop_back` on an empty container) and
wraps around, which `decSize` models exactly.
-/

/-- Number of values of a 64-bit `size_t`. -/
def USIZE : Nat := 2 ^ 64

/-- Model of `--s` for a `size_t` value `s < USIZE`: wraps to `USIZE - 1`
at zero, otherwise subtracts one. -/
def decSize (s : Nat) : Nat := if s = 0 then USIZE - 1 else s - 1

/-- The error message thrown by `at` (macro `OUT_OF_RANGE_MSG` in the source). -/
def OUT_OF_RANGE_MSG : String := "VLVector::_M_range_check: __n >= this->size()"

/-- State of a `VLVector<T, N>`: the three bookkeeping fields of the source
class plus `_curData`, the values of the first `_size` slots of the active
buffer. -/
structure VLVector (T : Type) (N : Nat) where
  _dynamic : Bool
  _size : Nat
  _capacity : Nat
  _curData : List T
deriving Repr

namespace VLVector

variable {T : Type} {N : Nat}

/-- Well-formedness of the model: the logical prefix has exactly `_size`
entries (true of every state the C++ object can be observed in, since the
buffer's first `_size` slots always hold the logically present elements). -/
def WF (v : VLVector T N) : Prop := v._curData.length = v._size

/-- `VLVector()` — the default constructor: Static mode, size `0`,
capacity `StaticCapacity`, active buffer `_statData`. -/
def new (T : Type) (N : Nat) : VLVector T N :=
  { _dynamic := false, _size := 0, _capacity := N, _curData := [] }

/-- `_increaseCapacity()` — sets `_capacity = (_size + INCREASE_INC) *
INCREASE_FACTOR`, i.e. `(_size + 1) * 3 / 2` (C++ integer division, and the
macro `INCREASE_FACTOR 3 / 2` makes the expression parse as
`((_size + 1) * 3) / 2`), copies the first `_size` slots into a fresh heap
array, frees the old heap array if owned, and sets `_dynamic = true`.  The
logical prefix is unchanged. -/
def _increaseCapacity (v : VLVector T N) : VLVector T N :=
  { v with _capacity := (v._size + 1) * 3 / 2, _dynamic := true }

/-- `_decreaseCapacity()` — copies the first `_size` slots back into
`_statData`, frees the heap array, sets `_capacity = StaticCapacity` and
`_dynamic = false`.  The logical prefix is unchanged.  (Only called when
`_size <= StaticCapacity`.) -/
def _decreaseCapacity (v : VLVector T N) : VLVector T N :=
  { v with _capacity := N, _dynamic := false }

/-- `push_back(toAdd)` — grows when `_size == _capacity`, then executes
`data()[_size++] = toAdd`, i.e. appends `toAdd` to the logical prefix and
increments `_size`. -/
def push_back (v : VLVector T N) (toAdd : T) : VLVector T N :=
  let v1 := if v._size = v._capacity then v._increaseCapacity else v
  { v1 with _curData := v1._curData ++ [toAdd], _size := v1._size + 1 }

/-- `VLVector(first, last)` — the range constructor: starts from
`VLVector()` and executes `push_back(*(first++))` until `first == last`,
i.e. appends the elements of the source range in order. -/
def fromRange (l : List T) : VLVector T N := l.foldl push_back (new T N)

/-- `size()`. -/
def size (v : VLVector T N) : Nat := v._size

/-- `capacity()`. -/
def capacity (v : VLVector T N) : Nat := v._capacity

/-- `empty()` — `_size == STARTING_SIZE`. -/
def empty (v : VLVector T N) : Bool := v._size == 0

/-- `operator[](idx)` — the unchecked read `data()[idx]`.  For
`idx < _size` this is the element at index `idx` of the logical prefix; an
out-of-range read returns an indeterminate slot value, modelled by
`default`. -/
def opIndex [Inhabited T] (v : VLVector T N) (idx : Nat) : T :=
  v._curData.getD idx default

/-- `at(idx)` — throws `std::out_of_range(OUT_OF_RANGE_MSG)` when
`idx >= _size`, otherwise returns `operator[](idx)`.  `at` is a
non-mutating accessor: it reads the fields of `*this` and modifies
nothing, which the embedding reflects by returning only the result. -/
def atChecked [Inhabited T] (v : VLVector T N) (idx : Nat) : Except String T :=
  if idx ≥ v._size then Except.error OUT_OF_RANGE_MSG
  else Except.ok (v.opIndex idx)

/-- `iterator insert(iter, toAdd)` — the single-element insert.
`inPlc = iter - cbegin()` is the target index (computed before any
reallocation).  After growing when `_size == _capacity`, the loop copies
slots `_size-1 .. inPlc` one place to the right (walking from the end),
writes `toAdd` at slot `inPlc`, and increments `_size`; the returned
iterator `copyTo` ends at index `inPlc`.  On the logical prefix this is
exactly `take inPlc ++ toAdd :: drop inPlc`.  Precondition (valid iterator):
`inPlc ≤ _size`. -/
def insert (v : VLVector T N) (inPlc : Nat) (toAdd : T) : VLVector T N × Nat :=
  let v1 := if v._size = v._capacity then v._increaseCapacity else v
  ({ v1 with
      _curData := v1._curData.take inPlc ++ toAdd :: v1._curData.drop inPlc,
      _size := v1._size + 1 },
   inPlc)

/-- `iterator insert(iter, first, last)` — the range insert.
`inPlc = iter - cbegin()`; the tail `[iter, cend())` (slots
`inPlc .. _size-1`) is first pushed element by element into a fresh
`VLVector after`; then `_size += (last - first)` is executed and
`_increaseCapacity()` runs when the ALREADY UPDATED `_size` exceeds
`_capacity` (so the growth formula sees the post-insertion size); finally
the new range is copied to slots `inPlc ..` and `after`'s contents to the
slots behind it.  Returns `begin() + inPlc`.  Precondition: `inPlc ≤ _size`. -/
def insertRange (v : VLVector T N) (inPlc : Nat) (newElems : List T) :
    VLVector T N × Nat :=
  let after : VLVector T N := fromRange (v._curData.drop inPlc)
  let v1 : VLVector T N := { v with _size := v._size + newElems.length }
  let v2 := if v1._size > v1._capacity then v1._increaseCapacity else v1
  ({ v2 with _curData := v2._curData.take inPlc ++ newElems ++ after._curData },
   inPlc)

/-- `pop_back()` — executes `--_size` (a `size_t` decrement, which wraps to
`2^64 - 1` when `_size == 0`), then calls `_decreaseCapacity()` when the new
`_size <= StaticCapacity` and the container is Dynamic.  The buffer is not
written, so the logical prefix loses its last entry. -/
def pop_back (v : VLVector T N) : VLVector T N :=
  let v1 : VLVector T N :=
    { v with _size := decSize v._size, _curData := v._curData.dropLast }
  if v1._size ≤ N ∧ v1._dynamic = true then v1._decreaseCapacity else v1

/-- `iterator erase(iter)` — the single-element erase at index
`idx = iter - begin()`: copies slots `idx+1 .. _size-1` one place to the
left, executes `--_size`, shrinks when the new `_size <= StaticCapacity`
in Dynamic mode, and returns the iterator at index `idx`.  On the logical
prefix the copy-and-shrink is `eraseIdx idx`.  Precondition (iterator to an
element): `idx < _size`. -/
def erase (v : VLVector T N) (idx : Nat) : VLVector T N × Nat :=
  let v1 : VLVector T N :=
    { v with _size := decSize v._size, _curData := v._curData.eraseIdx idx }
  (if v1._size ≤ N ∧ v1._dynamic = true then v1._decreaseCapacity else v1, idx)

/-- `iterator erase(first, last)` — the range erase for a valid range
`first ≤ last ≤ _size` (indices relative to `cbegin()`): copies slots
`last .. _size-1` onto `first ..`, executes `_size -= last - first`,
shrinks when the new `_size <= StaticCapacity` in Dynamic mode, and returns
the iterator at index `first`.  On the logical prefix this keeps the first
`first` entries and the entries from `last` on. -/
def eraseRange (v : VLVector T N) (first last : Nat) : VLVector T N × Nat :=
  let v1 : VLVector T N :=
    { v with _size := v._size - (last - first),
             _curData := v._curData.take first ++ v._curData.drop last }
  (if v1._size ≤ N ∧ v1._dynamic = true then v1._decreaseCapacity else v1, first)

/-- `clear()` — frees the heap array if owned, points `_curData` back at
`_statData`, sets `_dynamic = false`, and sets `_size = 0`.  NOTE: the
source never resets `_capacity` here (unlike `_decreaseCapacity`), so a
Dynamic container's enlarged `_capacity` survives `clear()` into Static
mode. -/
def clear (v : VLVector T N) : VLVector T N :=
  let v1 := if v._dynamic then { v with _dynamic := false } else v
  { v1 with _size := 0, _curData := [] }

/-- The sequence of logically present elements, as observed by iterating
from `begin()` (slot `0`) to `end()` (slot `_size`): the first `_size`
entries of the active buffer. -/
def toList (v : VLVector T N) : List T := v._curData.take v._size

/-- `operator=(rhs)` — copy assignment.  `aliased` models the pointer test
`this == &rhs` (self-assignment), under which nothing happens.  Otherwise:
the heap array is freed if owned (`_dynamic` is NOT reset; if the new
capacity is not above `StaticCapacity` the freed buffer would dangle — for
a Static destination, the relevant well-defined case, `_curData` still
holds the old elements), `_capacity` is set to `rhs.capacity()`, and when
that exceeds `StaticCapacity` a fresh value-initialized heap array becomes
the active buffer (its slots hold `T()`, modelled by `default`).  `_size`
is NOT reset.  Finally `insert(begin(), rhs.cbegin(), rhs.cend())` runs on
this state, whose tail snapshot therefore still covers the destination's
old `_size` slots. -/
def operatorAssign [Inhabited T] (a rhs : VLVector T N) (aliased : Bool) :
    VLVector T N :=
  if aliased then a
  else
    let a1 : VLVector T N :=
      if rhs._capacity > N then
        { _dynamic := true, _size := a._size, _capacity := rhs._capacity,
          _curData := List.replicate a._size default }
      else
        { a with _capacity := rhs._capacity }
    (insertRange a1 0 rhs.toList).1

/-- `VLVector(toCopy)` — the copy constructor: delegates to `VLVector()`
followed by `operator=(toCopy)` (on a distinct, fresh object). -/
def copyCtor [Inhabited T] (toCopy : VLVector T N) : VLVector T N :=
  operatorAssign (new T N) toCopy false

/-- Inserting a list one element at a time with the single-element
`insert`, each element at the slot following the previously inserted one
(the position the iterator returned by `insert` plus one denotes). -/
def insertEach (v : VLVector T N) (inPlc : Nat) : List T → VLVector T N × Nat
  | [] => (v, inPlc)
  | x :: xs =>
    let p := v.insert inPlc x
    insertEach p.1 (p.2 + 1) xs

/-- States reachable from construction by valid public operations:
`pop_back` only on a non-empty container, `erase` only at an element,
`eraseRange` only on a valid subrange, `insert`/`insertRange` only at a
position in `[begin, end]`, assignment from a reachable container. -/
inductive Reachable (T : Type) (N : Nat) [Inhabited T] : VLVector T N → Prop
  | new : Reachable T N (VLVector.new T N)
  | fromRange (l : List T) : Reachable T N (fromRange l)
  | copyCtor (b : VLVector T N) : Reachable T N b → Reachable T N (copyCtor b)
  | push_back (v : VLVector T N) (x : T) : Reachable T N v →
      Reachable T N (v.push_back x)
  | pop_back (v : VLVector T N) : Reachable T N v → v._size ≠ 0 →
      Reachable T N v.pop_back
  | insert (v : VLVector T N) (i : Nat) (x : T) : Reachable T N v →
      i ≤ v._size → Reachable T N (v.insert i x).1
  | insertRange (v : VLVector T N) (i : Nat) (l : List T) : Reachable T N v →
      i ≤ v._size → Reachable T N (v.insertRange i l).1
  | erase (v : VLVector T N) (i : Nat) : Reachable T N v → i < v._size →
      Reachable T N (v.erase i).1
  | eraseRange (v : VLVector T N) (i j : Nat) : Reachable T N v →
      i ≤ j → j ≤ v._size → Reachable T N (v.eraseRange i j).1
  | clear (v : VLVector T N) : Reachable T N v → Reachable T N v.clear
  | assign (a b : VLVector T N) : Reachable T N a → Reachable T N b →
      Reachable T N (operatorAssign a b false)
  | assignSelf (a : VLVector T N) : Reachable T N a →
      Reachable T N (operatorAssign a a true)

end VLVector

namespace VLVector

variable {T : Type} {N : Nat}

/-! ## Component equations for the operations -/

theorem decSize_of_ne_zero {s : Nat} (h : s ≠ 0) : decSize s = s - 1 := by
  simp [decSize, h]

theorem push_back_curData (v : VLVector T N) (x : T) :
    (v.push_back x)._curData = v._curData ++ [x] := by
  simp only [push_back, _increaseCapacity]
  split <;> rfl

theorem push_back_size (v : VLVector T N) (x : T) :
    (v.push_back x)._size = v._size + 1 := by
  simp only [push_back, _increaseCapacity]
  split <;> rfl

theorem push_back_capacity_grow (v : VLVector T N) (x : T)
    (h : v._size = v._capacity) :
    (v.push_back x)._capacity = (v._size + 1) * 3 / 2 := by
  simp [push_back, _increaseCapacity, h]

theorem insert_curData (v : VLVector T N) (i : Nat) (x : T) :
    (v.insert i x).1._curData = v._curData.take i ++ x :: v._curData.drop i := by
  simp only [insert, _increaseCapacity]
  split <;> rfl

theorem insert_size (v : VLVector T N) (i : Nat) (x : T) :
    (v.insert i x).1._size = v._size + 1 := by
  simp only [insert, _increaseCapacity]
  split <;> rfl

theorem insert_snd (v : VLVector T N) (i : Nat) (x : T) :
    (v.insert i x).2 = i := rfl

theorem insert_capacity_grow (v : VLVector T N) (i : Nat) (x : T)
    (h : v._size = v._capacity) :
    (v.insert i x).1._capacity = (v._size + 1) * 3 / 2 := by
  simp [insert, _increaseCapacity, h]

theorem foldl_push_back_curData (l : List T) (v : VLVector T N) :
    (l.foldl push_back v)._curData = v._curData ++ l := by
  induction l generalizing v with
  | nil => simp
  | cons x xs ih =>
    rw [List.foldl_cons, ih, push_back_curData]
    simp

theorem foldl_push_back_size (l : List T) (v : VLVector T N) :
    (l.foldl push_back v)._size = v._size + l.length := by
  induction l generalizing v with
  | nil => simp
  | cons x xs ih =>
    rw [List.foldl_cons, ih, push_back_size, List.length_cons]
    omega

theorem fromRange_curData (l : List T) :
    (fromRange l : VLVector T N)._curData = l := by
  rw [fromRange, foldl_push_back_curData]
  rfl

theorem fromRange_size (l : List T) :
    (fromRange l : VLVector T N)._size = l.length := by
  rw [fromRange, foldl_push_back_size]
  simp [new]

theorem insertRange_curData (v : VLVector T N) (i : Nat) (l : List T) :
    (v.insertRange i l).1._curData =
      v._curData.take i ++ l ++ v._curData.drop i := by
  simp only [insertRange, _increaseCapacity, fromRange_curData]
  split <;> simp [List.append_assoc]

theorem insertRange_size (v : VLVector T N) (i : Nat) (l : List T) :
    (v.insertRange i l).1._size = v._size + l.length := by
  simp only [insertRange, _increaseCapacity]
  split <;> rfl

theorem insertRange_snd (v : VLVector T N) (i : Nat) (l : List T) :
    (v.insertRange i l).2 = i := rfl

theorem insertRange_capacity_grow (v : VLVector T N) (i : Nat) (l : List T)
    (h : v._size + l.length > v._capacity) :
    (v.insertRange i l).1._capacity = (v._size + l.length + 1) * 3 / 2 := by
  simp [insertRange, _increaseCapacity, h]

theorem insertRange_capacity_no_grow (v : VLVector T N) (i : Nat) (l : List T)
    (h : ¬ v._size + l.length > v._capacity) :
    (v.insertRange i l).1._capacity = v._capacity := by
  simp [insertRange, _increaseCapacity, h]

end VLVector

namespace VLVector

variable {T : Type} {N : Nat}

/-! ## Preservation of `_size ≤ _capacity` by every valid operation -/

theorem size_le_capacity_push (v : VLVector T N) (x : T)
    (h : v._size ≤ v._capacity) :
    (v.push_back x)._size ≤ (v.push_back x)._capacity := by
  by_cases hc : v._size = v._capacity <;>
    simp [push_back, _increaseCapacity, hc] <;> omega

theorem size_le_capacity_insert (v : VLVector T N) (i : Nat) (x : T)
    (h : v._size ≤ v._capacity) :
    (v.insert i x).1._size ≤ (v.insert i x).1._capacity := by
  by_cases hc : v._size = v._capacity <;>
    simp [insert, _increaseCapacity, hc] <;> omega

theorem size_le_capacity_insertRange (v : VLVector T N) (i : Nat) (l : List T) :
    (v.insertRange i l).1._size ≤ (v.insertRange i l).1._capacity := by
  by_cases hc : v._size + l.length > v._capacity <;>
    simp [insertRange, _increaseCapacity, hc] <;> omega

theorem size_le_capacity_pop (v : VLVector T N)
    (h : v._size ≤ v._capacity) (h0 : v._size ≠ 0) :
    v.pop_back._size ≤ v.pop_back._capacity := by
  simp only [pop_back, _decreaseCapacity, decSize_of_ne_zero h0]
  split
  · rename_i hcond
    exact hcond.1
  · show v._size - 1 ≤ v._capacity
    omega

theorem size_le_capacity_erase (v : VLVector T N) (i : Nat)
    (h : v._size ≤ v._capacity) (h0 : v._size ≠ 0) :
    (v.erase i).1._size ≤ (v.erase i).1._capacity := by
  simp only [erase, _decreaseCapacity, decSize_of_ne_zero h0]
  split
  · rename_i hcond
    exact hcond.1
  · show v._size - 1 ≤ v._capacity
    omega

theorem size_le_capacity_eraseRange (v : VLVector T N) (i j : Nat)
    (h : v._size ≤ v._capacity) :
    (v.eraseRange i j).1._size ≤ (v.eraseRange i j).1._capacity := by
  simp only [eraseRange, _decreaseCapacity]
  split
  · rename_i hcond
    exact hcond.1
  · show v._size - (j - i) ≤ v._capacity
    omega

theorem size_le_capacity_clear (v : VLVector T N) :
    v.clear._size ≤ v.clear._capacity := by
  simp [clear]

theorem size_le_capacity_assign [Inhabited T] (a b : VLVector T N) :
    (operatorAssign a b false)._size ≤ (operatorAssign a b false)._capacity := by
  simp only [operatorAssign, Bool.false_eq_true, if_false]
  exact size_le_capacity_insertRange _ _ _

theorem size_le_capacity_foldl (l : List T) (v : VLVector T N)
    (h : v._size ≤ v._capacity) :
    (l.foldl push_back v)._size ≤ (l.foldl push_back v)._capacity := by
  induction l generalizing v with
  | nil => exact h
  | cons x xs ih => exact ih _ (size_le_capacity_push v x h)

end VLVector

namespace VLVector

variable {T : Type} {N : Nat}

/-! ## The pushBack invariant (size, mode and capacity along push sequences) -/

theorem pushInv_push (v : VLVector T N) (x : T)
    (h1 : v._size ≤ v._capacity) (h2 : v._dynamic = true ↔ N < v._size)
    (h3 : v._dynamic = false → v._capacity = N) :
    (v.push_back x)._size ≤ (v.push_back x)._capacity ∧
    ((v.push_back x)._dynamic = true ↔ N < (v.push_back x)._size) ∧
    ((v.push_back x)._dynamic = false → (v.push_back x)._capacity = N) := by
  by_cases hc : v._size = v._capacity
  · have hNs : N ≤ v._size := by
      cases hd : v._dynamic
      · have := h3 hd
        omega
      · exact Nat.le_of_lt (h2.mp hd)
    refine ⟨?_, ?_, ?_⟩ <;> simp [push_back, _increaseCapacity, hc] <;> omega
  · refine ⟨size_le_capacity_push v x h1, ?_, ?_⟩
    · simp only [push_back, _increaseCapacity]
      rw [if_neg hc]
      cases hd : v._dynamic
      · have := h3 hd
        simp
        omega
      · have := h2.mp hd
        simp
        omega
    · intro hdyn
      simp [push_back, _increaseCapacity, hc] at hdyn ⊢
      exact h3 hdyn

theorem pushInv_foldl (l : List T) (v : VLVector T N)
    (h1 : v._size ≤ v._capacity) (h2 : v._dynamic = true ↔ N < v._size)
    (h3 : v._dynamic = false → v._capacity = N) :
    (l.foldl push_back v)._size ≤ (l.foldl push_back v)._capacity ∧
    ((l.foldl push_back v)._dynamic = true ↔ N < (l.foldl push_back v)._size) ∧
    ((l.foldl push_back v)._dynamic = false →
      (l.foldl push_back v)._capacity = N) := by
  induction l generalizing v with
  | nil => exact ⟨h1, h2, h3⟩
  | cons x xs ih =>
    obtain ⟨g1, g2, g3⟩ := pushInv_push v x h1 h2 h3
    exact ih _ g1 g2 g3

/-! ## List-level facts about the shifting done by insert and erase -/

theorem eraseIdx_take_cons_drop (l : List T) (i : Nat) (x : T)
    (h : i ≤ l.length) :
    (l.take i ++ x :: l.drop i).eraseIdx i = l := by
  have hlen : (l.take i).length = i := by
    rw [List.length_take]
    omega
  rw [List.eraseIdx_eq_take_drop_succ,
      List.take_append_of_le_length (by omega),
      List.take_of_length_le (by omega),
      show i + 1 = (l.take i).length + 1 from by omega,
      List.drop_append]
  simp

theorem take_succ_take_cons_drop (l : List T) (i : Nat) (x : T)
    (h : i ≤ l.length) :
    (l.take i ++ x :: l.drop i).take (i + 1) = l.take i ++ [x] := by
  have hlen : (l.take i).length = i := by
    rw [List.length_take]
    omega
  rw [show i + 1 = (l.take i).length + 1 from by omega, List.take_append]
  simp

theorem drop_succ_take_cons_drop (l : List T) (i : Nat) (x : T)
    (h : i ≤ l.length) :
    (l.take i ++ x :: l.drop i).drop (i + 1) = l.drop i := by
  have hlen : (l.take i).length = i := by
    rw [List.length_take]
    omega
  rw [show i + 1 = (l.take i).length + 1 from by omega, List.drop_append]
  simp

/-! ## Component equations for erase and insertEach -/

theorem erase_curData (v : VLVector T N) (i : Nat) :
    (v.erase i).1._curData = v._curData.eraseIdx i := by
  simp only [erase, _decreaseCapacity]
  split <;> rfl

theorem erase_size (v : VLVector T N) (i : Nat) (h0 : v._size ≠ 0) :
    (v.erase i).1._size = v._size - 1 := by
  simp only [erase, _decreaseCapacity, decSize_of_ne_zero h0]
  split <;> rfl

theorem insertEach_curData_size (l : List T) (v : VLVector T N) (i : Nat)
    (hw : v._curData.length = v._size) (hi : i ≤ v._size) :
    (v.insertEach i l).1._curData = v._curData.take i ++ l ++ v._curData.drop i ∧
    (v.insertEach i l).1._size = v._size + l.length := by
  induction l generalizing v i with
  | nil =>
    simp only [insertEach]
    constructor
    · simp
    · simp
  | cons x xs ih =>
    have hil : i ≤ v._curData.length := by omega
    have hw' : (v.insert i x).1._curData.length = (v.insert i x).1._size := by
      rw [insert_curData, insert_size]
      simp
      omega
    have hi' : i + 1 ≤ (v.insert i x).1._size := by
      rw [insert_size]
      omega
    obtain ⟨hA, hB⟩ := ih (v.insert i x).1 (i + 1) hw' hi'
    rw [insert_curData, take_succ_take_cons_drop _ _ _ hil,
        drop_succ_take_cons_drop _ _ _ hil] at hA
    rw [insert_size] at hB
    simp only [insertEach, insert_snd]
    constructor
    · rw [hA]
      simp
    · rw [hB]
      simp
      omega

end VLVector

namespace VLVector

variable {T : Type} {N : Nat}

/-! ## The claims -/

/-- C1: evaluation of the code at the failing input.  The claim requires
that after `clear()` the container is Static with size `0` and capacity
`N`, but `clear()` never resets `_capacity` (unlike `_decreaseCapacity`):
with `N = 4`, pushing `1..5` promotes to Dynamic with capacity `7`, and
`clear()` then leaves a Static, size-0 container whose capacity is still
`7` — a later `push_back` would find `_size < _capacity` up to size `7`
and write past the 4-slot inline buffer. -/
theorem clear_leaves_stale_capacity :
    (clear (fromRange [1, 2, 3, 4, 5] : VLVector Nat 4))._dynamic = false ∧
    (clear (fromRange [1, 2, 3, 4, 5] : VLVector Nat 4))._size = 0 ∧
    (clear (fromRange [1, 2, 3, 4, 5] : VLVector Nat 4))._capacity = 7 ∧
    (clear (fromRange [1, 2, 3, 4, 5] : VLVector Nat 4))._capacity ≠ 4 := by
  decide

/-- C2 counterexample: copy assignment between two distinct non-empty
containers does NOT make the destination equal to the source.  With
`N = 4`, `a = [1]`, `b = [2]`: `operator=` never resets the destination's
`_size`, so the final range insert treats the destination's old element as
a tail snapshot and `a = b` ends with contents `[2, 1]` of size `2`
instead of `[2]` of size `1`. -/
theorem operatorAssign_nonempty_cex :
    (fromRange [1] : VLVector Nat 4)._curData ≠
      (fromRange [2] : VLVector Nat 4)._curData ∧
    (operatorAssign (fromRange [1] : VLVector Nat 4) (fromRange [2])
        false)._size ≠ (fromRange [2] : VLVector Nat 4)._size ∧
    (operatorAssign (fromRange [1] : VLVector Nat 4) (fromRange [2])
        false).toList ≠ (fromRange [2] : VLVector Nat 4).toList := by
  decide

/-- C2 (amended): copy assignment is correct only into an empty destination
(the state from which the copy constructor invokes it): the destination
then receives exactly the source's element sequence and size; and
self-assignment (`this == &rhs`) is a no-op. -/
theorem operatorAssign_empty_dest [Inhabited T] (a b : VLVector T N)
    (ha0 : a._size = 0) (haD : a._curData = [])
    (hwb : b._curData.length = b._size) :
    (operatorAssign a b false).toList = b.toList ∧
    (operatorAssign a b false)._size = b._size ∧
    operatorAssign a a true = a := by
  have key : ∀ c : VLVector T N, c._size = 0 → c._curData = [] →
      (insertRange c 0 b.toList).1.toList = b.toList ∧
      (insertRange c 0 b.toList).1._size = b._size := by
    intro c hc0 hcD
    have hlen : b.toList.length = b._size := by
      rw [toList, List.length_take, hwb]
      omega
    have hcur := insertRange_curData c 0 b.toList
    rw [hcD] at hcur
    simp at hcur
    have hsz := insertRange_size c 0 b.toList
    rw [hc0] at hsz
    simp at hsz
    constructor
    · rw [toList, hcur, hsz, List.take_length]
    · rw [hsz, hlen]
  have main : (operatorAssign a b false).toList = b.toList ∧
      (operatorAssign a b false)._size = b._size := by
    simp only [operatorAssign, Bool.false_eq_true, if_false]
    split
    · exact key _ ha0 (by simp [ha0])
    · exact key _ ha0 haD
  exact ⟨main.1, main.2, rfl⟩

/-- Witness for C2 (amended) at the empty destination `VLVector()` and the
source `[7, 8]` with `N = 4`. -/
theorem operatorAssign_empty_dest_witness :
    ((new Nat 4)._size = 0 ∧ (new Nat 4)._curData = [] ∧
      (fromRange [7, 8] : VLVector Nat 4)._curData.length =
        (fromRange [7, 8] : VLVector Nat 4)._size) ∧
    ((operatorAssign (new Nat 4) (fromRange [7, 8]) false).toList =
        (fromRange [7, 8] : VLVector Nat 4).toList ∧
      (operatorAssign (new Nat 4) (fromRange [7, 8]) false)._size =
        (fromRange [7, 8] : VLVector Nat 4)._size ∧
      operatorAssign (new Nat 4) (new Nat 4) true = new Nat 4) :=
  ⟨⟨by decide, by decide, by decide⟩,
    operatorAssign_empty_dest (new Nat 4) (fromRange [7, 8])
      (by decide) (by decide) (by decide)⟩

/-- C3 counterexample: a range insert that triggers growth does NOT compute
the new capacity from the pre-insertion size.  With `N = 4` and the full
container `[1, 2, 3, 4]` (size 4 = capacity 4), inserting the two-element
range `[5, 6]` at the end triggers growth and yields capacity
`(4 + 2 + 1) * 3 / 2 = 10`, not `(4 + 1) * 3 / 2 = 7` as the claim's
formula over the pre-insertion size would give. -/
theorem insertRange_growth_cex :
    (fromRange [1, 2, 3, 4] : VLVector Nat 4)._size + [5, 6].length >
      (fromRange [1, 2, 3, 4] : VLVector Nat 4)._capacity ∧
    ((fromRange [1, 2, 3, 4] : VLVector Nat 4).insertRange 4
        [5, 6]).1._capacity ≠
      ((fromRange [1, 2, 3, 4] : VLVector Nat 4)._size + 1) * 3 / 2 := by
  decide

/-- C3 (amended): when growth triggers, `push_back` and the single-element
`insert` set the new capacity to `(size + 1) * 3 / 2` (integer division)
with `size` the element count before the insertion; the range insert,
however, increments `_size` by the range length before growing and
therefore sets capacity `(size + rangeLength + 1) * 3 / 2`.  In particular
pushing a 5th element into a full `N = 4` container yields capacity
`(4 + 1) * 3 / 2 = 7`. -/
theorem growth_capacity_formula (v : VLVector T N) (x : T) (i : Nat)
    (l : List T) (hpush : v._size = v._capacity)
    (hrange : v._size + l.length > v._capacity) :
    (v.push_back x)._capacity = (v._size + 1) * 3 / 2 ∧
    (v.insert i x).1._capacity = (v._size + 1) * 3 / 2 ∧
    (v.insertRange i l).1._capacity = (v._size + l.length + 1) * 3 / 2 ∧
    (fromRange [1, 2, 3, 4, 5] : VLVector Nat 4)._capacity = 7 :=
  ⟨push_back_capacity_grow v x hpush, insert_capacity_grow v i x hpush,
    insertRange_capacity_grow v i l hrange, by decide⟩

/-- Witness for C3 (amended) on the full container `[1, 2, 3, 4]` with
`N = 4`, pushed value `5`, insert position `2` and range `[9, 9]`. -/
theorem growth_capacity_formula_witness :
    ((fromRange [1, 2, 3, 4] : VLVector Nat 4)._size =
        (fromRange [1, 2, 3, 4] : VLVector Nat 4)._capacity ∧
      (fromRange [1, 2, 3, 4] : VLVector Nat 4)._size + [9, 9].length >
        (fromRange [1, 2, 3, 4] : VLVector Nat 4)._capacity) ∧
    (((fromRange [1, 2, 3, 4] : VLVector Nat 4).push_back 5)._capacity =
        ((fromRange [1, 2, 3, 4] : VLVector Nat 4)._size + 1) * 3 / 2 ∧
      ((fromRange [1, 2, 3, 4] : VLVector Nat 4).insert 2 5).1._capacity =
        ((fromRange [1, 2, 3, 4] : VLVector Nat 4)._size + 1) * 3 / 2 ∧
      ((fromRange [1, 2, 3, 4] : VLVector Nat 4).insertRange 2
          [9, 9]).1._capacity =
        ((fromRange [1, 2, 3, 4] : VLVector Nat 4)._size + [9, 9].length + 1) *
          3 / 2 ∧
      (fromRange [1, 2, 3, 4, 5] : VLVector Nat 4)._capacity = 7) :=
  ⟨⟨by decide, by decide⟩,
    growth_capacity_formula (fromRange [1, 2, 3, 4]) 5 2 [9, 9]
      (by decide) (by decide)⟩

/-- C4 counterexample: `pop_back` on an empty container executes `--_size`
on a `size_t` zero, wrapping `_size` to `2^64 - 1` and violating
`size ≤ capacity` (with `N = 4` the capacity stays `4`). -/
theorem pop_back_empty_cex :
    ¬ ((new Nat 4).pop_back._size ≤ (new Nat 4).pop_back._capacity) := by
  decide

/-- C4 (amended): `_size ≤ _capacity` holds in every state reachable by
public operations in which `pop_back` is applied only to non-empty
containers and `erase` only to valid positions and ranges; unrestricted
`pop_back` on an empty container wraps `_size` to `2^64 - 1 > _capacity`. -/
theorem reachable_size_le_capacity [Inhabited T] {v : VLVector T N}
    (h : Reachable T N v) : v._size ≤ v._capacity := by
  induction h with
  | new => exact Nat.zero_le N
  | fromRange l => exact size_le_capacity_foldl l (new T N) (Nat.zero_le N)
  | copyCtor b hb ih => exact size_le_capacity_assign (new T N) b
  | push_back v x hv ih => exact size_le_capacity_push v x ih
  | pop_back v hv h0 ih => exact size_le_capacity_pop v ih h0
  | insert v i x hv hi ih => exact size_le_capacity_insert v i x ih
  | insertRange v i l hv hi ih => exact size_le_capacity_insertRange v i l
  | erase v i hv hi ih => exact size_le_capacity_erase v i ih (by omega)
  | eraseRange v i j hv hij hj ih => exact size_le_capacity_eraseRange v i j ih
  | clear v hv ih => exact size_le_capacity_clear v
  | assign a b ha hb iha ihb => exact size_le_capacity_assign a b
  | assignSelf a ha ih => exact ih

/-- Witness for C4 (amended) at the reachable state `fromRange [1, 2, 3]`
with `N = 4`. -/
theorem reachable_size_le_capacity_witness :
    (fromRange [1, 2, 3] : VLVector Nat 4)._size ≤
      (fromRange [1, 2, 3] : VLVector Nat 4)._capacity :=
  reachable_size_le_capacity (Reachable.fromRange [1, 2, 3])

end VLVector

namespace VLVector

variable {T : Type} {N : Nat}

/-- C5: for a valid position `i` the range insert produces the same final
element sequence as inserting the elements one at a time with the
single-element insert at successive positions, and returns the index of
the first inserted element (the contents become `take i ++ l ++ drop i`,
so the returned slot `i` holds the head of `l`). -/
theorem insertRange_refines_repeated_inserts (v : VLVector T N) (i : Nat)
    (l : List T) (hw : v._curData.length = v._size) (hi : i ≤ v._size) :
    (v.insertRange i l).1.toList = (v.insertEach i l).1.toList ∧
    (v.insertRange i l).2 = i ∧
    (v.insertRange i l).1._curData =
      v._curData.take i ++ l ++ v._curData.drop i := by
  obtain ⟨hA, hB⟩ := insertEach_curData_size l v i hw hi
  refine ⟨?_, insertRange_snd v i l, insertRange_curData v i l⟩
  rw [toList, toList, hA, hB, insertRange_curData, insertRange_size]

/-- Witness for C5 on `[1, 2, 3]` with `N = 4`, inserting `[7, 8, 9]` at
position `1`. -/
theorem insertRange_refines_repeated_inserts_witness :
    ((fromRange [1, 2, 3] : VLVector Nat 4)._curData.length =
        (fromRange [1, 2, 3] : VLVector Nat 4)._size ∧
      1 ≤ (fromRange [1, 2, 3] : VLVector Nat 4)._size) ∧
    (((fromRange [1, 2, 3] : VLVector Nat 4).insertRange 1
          [7, 8, 9]).1.toList =
        ((fromRange [1, 2, 3] : VLVector Nat 4).insertEach 1
          [7, 8, 9]).1.toList ∧
      ((fromRange [1, 2, 3] : VLVector Nat 4).insertRange 1 [7, 8, 9]).2 = 1 ∧
      ((fromRange [1, 2, 3] : VLVector Nat 4).insertRange 1
          [7, 8, 9]).1._curData =
        (fromRange [1, 2, 3] : VLVector Nat 4)._curData.take 1 ++ [7, 8, 9] ++
          (fromRange [1, 2, 3] : VLVector Nat 4)._curData.drop 1) :=
  ⟨⟨by decide, by decide⟩,
    insertRange_refines_repeated_inserts (fromRange [1, 2, 3]) 1 [7, 8, 9]
      (by decide) (by decide)⟩

/-- C6: for every sequence of pushes (the container `fromRange l`, which
push_backs each element of `l` in order onto an empty container): the size
equals the number of pushes, the mode is Dynamic iff more than `N`
elements were pushed, `size ≤ capacity`, a Static container still has
capacity `N`; and `size ≤ capacity` holds after every intermediate push as
well, the state after `k` pushes being `fromRange (l.take k)`. -/
theorem fromRange_push_properties (l : List T) :
    (fromRange l : VLVector T N)._size = l.length ∧
    ((fromRange l : VLVector T N)._dynamic = true ↔ N < l.length) ∧
    (fromRange l : VLVector T N)._size ≤
      (fromRange l : VLVector T N)._capacity ∧
    ((fromRange l : VLVector T N)._dynamic = false →
      (fromRange l : VLVector T N)._capacity = N) ∧
    (∀ k, (fromRange (l.take k) : VLVector T N)._size ≤
      (fromRange (l.take k) : VLVector T N)._capacity) := by
  have h2n : (new T N)._dynamic = true ↔ N < (new T N)._size := by
    simp [new]
  have h3n : (new T N)._dynamic = false → (new T N)._capacity = N :=
    fun _ => rfl
  obtain ⟨g1, g2, g3⟩ := pushInv_foldl l (new T N) (Nat.zero_le N) h2n h3n
  have g2' : (fromRange l : VLVector T N)._dynamic = true ↔
      N < (fromRange l : VLVector T N)._size := g2
  rw [fromRange_size] at g2'
  refine ⟨fromRange_size l, g2', g1, g3, ?_⟩
  intro k
  exact (pushInv_foldl (l.take k) (new T N) (Nat.zero_le N) h2n h3n).1

/-- C7: a Dynamic container holding `N + 1` elements transitions back to
Static mode with capacity `N` after a single `pop_back`, and the remaining
`N` elements keep their values and order. -/
theorem pop_back_demotes_to_static (v : VLVector T N)
    (hd : v._dynamic = true) (hs : v._size = N + 1)
    (hw : v._curData.length = v._size) :
    v.pop_back._dynamic = false ∧ v.pop_back._capacity = N ∧
    v.pop_back._size = N ∧ v.pop_back._curData = v._curData.take N := by
  have h0 : v._size ≠ 0 := by omega
  simp only [pop_back, _decreaseCapacity, decSize_of_ne_zero h0]
  rw [if_pos]
  · refine ⟨rfl, rfl, ?_, ?_⟩
    · show v._size - 1 = N
      omega
    · show v._curData.dropLast = v._curData.take N
      rw [List.dropLast_eq_take, hw, hs]
      simp
  · constructor
    · show v._size - 1 ≤ N
      omega
    · show v._dynamic = true
      exact hd

/-- Witness for C7 at the Dynamic 5-element container built by pushing
`1..5` with `N = 4`. -/
theorem pop_back_demotes_to_static_witness :
    ((fromRange [1, 2, 3, 4, 5] : VLVector Nat 4)._dynamic = true ∧
      (fromRange [1, 2, 3, 4, 5] : VLVector Nat 4)._size = 4 + 1 ∧
      (fromRange [1, 2, 3, 4, 5] : VLVector Nat 4)._curData.length =
        (fromRange [1, 2, 3, 4, 5] : VLVector Nat 4)._size) ∧
    ((fromRange [1, 2, 3, 4, 5] : VLVector Nat 4).pop_back._dynamic = false ∧
      (fromRange [1, 2, 3, 4, 5] : VLVector Nat 4).pop_back._capacity = 4 ∧
      (fromRange [1, 2, 3, 4, 5] : VLVector Nat 4).pop_back._size = 4 ∧
      (fromRange [1, 2, 3, 4, 5] : VLVector Nat 4).pop_back._curData =
        (fromRange [1, 2, 3, 4, 5] : VLVector Nat 4)._curData.take 4) :=
  ⟨⟨by decide, by decide, by decide⟩,
    pop_back_demotes_to_static (fromRange [1, 2, 3, 4, 5])
      (by decide) (by decide) (by decide)⟩

/-- C8: `at(idx)` returns the out-of-range error exactly when
`idx ≥ size`, and for `idx < size` it returns precisely the element stored
at index `idx` of the active buffer; being a non-mutating accessor it
leaves the container unchanged (the embedding returns only the result). -/
theorem atChecked_spec [Inhabited T] (v : VLVector T N)
    (hw : v._curData.length = v._size) :
    (∀ idx, (v.atChecked idx = Except.error OUT_OF_RANGE_MSG ↔
      v._size ≤ idx)) ∧
    (∀ idx, idx < v._size →
      v._curData[idx]? = some (v.opIndex idx) ∧
      v.atChecked idx = Except.ok (v.opIndex idx)) := by
  constructor
  · intro idx
    constructor
    · intro h
      by_contra hlt
      simp [atChecked, hlt] at h
    · intro h
      simp [atChecked, h]
  · intro idx h
    have hlen : idx < v._curData.length := by omega
    refine ⟨?_, ?_⟩
    · simp [opIndex, List.getD_eq_getElem?_getD,
        List.getElem?_eq_getElem hlen]
    · simp [atChecked, Nat.not_le.mpr h]

/-- Witness for C8 at the container `[10, 20, 30]` with `N = 4`. -/
theorem atChecked_spec_witness :
    ((fromRange [10, 20, 30] : VLVector Nat 4)._curData.length =
      (fromRange [10, 20, 30] : VLVector Nat 4)._size) ∧
    ((∀ idx, ((fromRange [10, 20, 30] : VLVector Nat 4).atChecked idx =
        Except.error OUT_OF_RANGE_MSG ↔
        (fromRange [10, 20, 30] : VLVector Nat 4)._size ≤ idx)) ∧
      (∀ idx, idx < (fromRange [10, 20, 30] : VLVector Nat 4)._size →
        (fromRange [10, 20, 30] : VLVector Nat 4)._curData[idx]? =
          some ((fromRange [10, 20, 30] : VLVector Nat 4).opIndex idx) ∧
        (fromRange [10, 20, 30] : VLVector Nat 4).atChecked idx =
          Except.ok ((fromRange [10, 20, 30] : VLVector Nat 4).opIndex idx))) :=
  ⟨by decide, atChecked_spec (fromRange [10, 20, 30]) (by decide)⟩

/-- C9: inserting a value at a valid position and erasing at the position
the insert returned restores the original logical contents and size. -/
theorem erase_insert_restores (v : VLVector T N) (i : Nat) (x : T)
    (hw : v._curData.length = v._size) (hi : i ≤ v._size) :
    ((v.insert i x).1.erase (v.insert i x).2).1._curData = v._curData ∧
    ((v.insert i x).1.erase (v.insert i x).2).1._size = v._size := by
  rw [insert_snd]
  constructor
  · rw [erase_curData, insert_curData,
      eraseIdx_take_cons_drop _ _ _ (by omega)]
  · rw [erase_size _ _ (by rw [insert_size]; omega), insert_size]
    omega

/-- Witness for C9 at `[1, 2, 3, 4]` with `N = 4`, inserting `9` at
position `2` (which triggers growth) and erasing it again. -/
theorem erase_insert_restores_witness :
    ((fromRange [1, 2, 3, 4] : VLVector Nat 4)._curData.length =
        (fromRange [1, 2, 3, 4] : VLVector Nat 4)._size ∧
      2 ≤ (fromRange [1, 2, 3, 4] : VLVector Nat 4)._size) ∧
    ((((fromRange [1, 2, 3, 4] : VLVector Nat 4).insert 2 9).1.erase
        ((fromRange [1, 2, 3, 4] : VLVector Nat 4).insert 2 9).2).1._curData =
        (fromRange [1, 2, 3, 4] : VLVector Nat 4)._curData ∧
      (((fromRange [1, 2, 3, 4] : VLVector Nat 4).insert 2 9).1.erase
        ((fromRange [1, 2, 3, 4] : VLVector Nat 4).insert 2 9).2).1._size =
        (fromRange [1, 2, 3, 4] : VLVector Nat 4)._size) :=
  ⟨⟨by decide, by decide⟩,
    erase_insert_restores (fromRange [1, 2, 3, 4]) 2 9
      (by decide) (by decide)⟩

/-- C10: building a container from any sequence `S` with the range
constructor and then iterating from `begin()` to `end()` yields exactly
`S`, in order. -/
theorem fromRange_round_trip (l : List T) :
    (fromRange l : VLVector T N).toList = l := by
  rw [toList, fromRange_curData, fromRange_size, List.take_length]

end VLVector
